import Mathlib

/-!
# Coffee Shop drinks API — verification of the backend request handlers

Shallow embedding of `src/starter_code/backend/src/api.py` (Flask CRUD routes over
a single `Drink` resource, permission-guarded by a `requires_auth` decorator).

The repository ships only `api.py`; `database/models.py` (the `Drink` model and its
`short`/`long` projections) and `auth/auth.py` (`AuthError`, `requires_auth`) are
referenced but not present, so those parts are modelled from the specification and
carry a `Modelled from the spec:` doc comment.  Everything else is translated
directly from `api.py`.

Conventions of the embedding:
* The persisted drink collection is a `List Drink`; each row stores `recipe` as the
  serialized JSON text that `json.dumps` produced, exactly as the relational column does.
* A request handler is a function from the database (plus the parsed request body /
  path id / token-verification result) to a pair of an HTTP response and the new
  database.  A response is a status code and a JSON value (`JVal`).
* A Python exception that escapes the handler is rendered by Flask's registered
  500 error handler; `abort(n)` invokes the registered handler for `n`.
-/

/-- JSON values, the wire format produced by `jsonify`.  Object fields are an
ordered association list, mirroring Python dict insertion order. -/
inductive JVal where
  | jnull : JVal
  | jbool : Bool → JVal
  | jnum : Int → JVal
  | jstr : String → JVal
  | jarr : List JVal → JVal
  | jobj : List (String × JVal) → JVal
deriving Repr

/-- One recipe entry: per the spec's data model a recipe is an ordered sequence of
ingredient entries, each with a color and a parts/quantity value. -/
structure Ingredient where
  color : String
  parts : Nat
deriving Repr, DecidableEq

/-- A persisted drink row: server-assigned `id`, display `title`, and the `recipe`
column holding serialized JSON text (the code stores `json.dumps(recipe)`). -/
structure Drink where
  id : Nat
  title : String
  recipe : String
deriving Repr, DecidableEq

/-- The persisted drink collection. -/
abbrev DB := List Drink

/-! ## `json.dumps` / `json.loads` for recipe values

`add_drink` and `edit_drink_by_id` persist `json.dumps(recipe)`; the `long`/`short`
projections read the column back with `json.loads`.  We embed CPython's default
output format for a recipe (an array of objects with a string `color` and a numeric
`parts`, separators `", "` and `": "`) and a parser for exactly that grammar. -/

/-- The decimal digit character for `d < 10`. -/
def digitChar (d : Nat) : Char := Char.ofNat (48 + d)

/-- Fuel-based decimal printer: the digits of `n`, most significant first; empty for 0.
Any `fuel ≥ n` suffices. -/
def natCharsAux : Nat → Nat → List Char
  | 0, _ => []
  | fuel+1, n => if n = 0 then [] else natCharsAux fuel (n / 10) ++ [digitChar (n % 10)]

/-- Decimal representation of `n`, as `json.dumps` prints a non-negative integer. -/
def natChars (n : Nat) : List Char := if n = 0 then ['0'] else natCharsAux n n

/-- JSON string escaping: quote and backslash characters get a preceding backslash. -/
def escChar (c : Char) : List Char := if c = '"' ∨ c = '\\' then ['\\', c] else [c]

def escape (s : List Char) : List Char := (s.map escChar).flatten

def colorLit : List Char := "\x7b\"color\": \"".data

def partsLit : List Char := ", \"parts\": ".data

/-- `json.dumps` of one recipe entry. -/
def dumpEntry (e : Ingredient) : List Char :=
  colorLit ++ escape e.color.data ++ '"' :: partsLit ++ natChars e.parts ++ ['\x7d']

/-- Comma-separated `json.dumps` of the entries of a recipe. -/
def dumpEntries : List Ingredient → List Char
  | [] => []
  | [e] => dumpEntry e
  | e :: es => dumpEntry e ++ ',' :: ' ' :: dumpEntries es

/-- `json.dumps(recipe)`: the serialized JSON text the handlers persist. -/
def json_dumps (es : List Ingredient) : String := String.mk ('[' :: (dumpEntries es ++ [']']))

/-- Expect the literal `lit` at the head of the input; return the remainder. -/
def parseLit : List Char → List Char → Option (List Char)
  | [], s => some s
  | c :: cs, d :: ds => if c = d then parseLit cs ds else none
  | _ :: _, [] => none

/-- Parse a JSON string body up to (and consuming) the closing quote, undoing escapes. -/
def parseStrAux : List Char → Option (List Char × List Char)
  | [] => none
  | c :: rest =>
    if c = '\\' then
      match rest with
      | [] => none
      | c2 :: rest2 => (parseStrAux rest2).map fun p => (c2 :: p.1, p.2)
    else if c = '"' then some ([], rest)
    else (parseStrAux rest).map fun p => (c :: p.1, p.2)

/-- Split off the maximal run of decimal digits. -/
def munch : List Char → List Char × List Char
  | [] => ([], [])
  | c :: cs => if c.isDigit then (c :: (munch cs).1, (munch cs).2) else ([], c :: cs)

/-- Value of a most-significant-first digit string. -/
def digitsVal (ds : List Char) : Nat := ds.foldl (fun a c => 10 * a + (c.toNat - 48)) 0

/-- Parse a non-empty run of digits as a number. -/
def parseNum (s : List Char) : Option (Nat × List Char) :=
  match munch s with
  | ([], _) => none
  | (ds, r) => some (digitsVal ds, r)

/-- Parse one recipe entry object. -/
def parseEntry (s : List Char) : Option (Ingredient × List Char) := do
  let s1 ← parseLit colorLit s
  let (col, s2) ← parseStrAux s1
  let s3 ← parseLit partsLit s2
  let (n, s4) ← parseNum s3
  let s5 ← parseLit ['\x7d'] s4
  some (⟨String.mk col, n⟩, s5)

/-- Parse a non-empty comma-separated entry sequence followed by the closing bracket. -/
def parseEntriesAux : Nat → List Char → Option (List Ingredient × List Char)
  | 0, _ => none
  | fuel+1, s => do
    let (e, s1) ← parseEntry s
    match s1 with
    | ']' :: r => some ([e], r)
    | ',' :: ' ' :: r => do
      let (es, r2) ← parseEntriesAux fuel r
      some (e :: es, r2)
    | _ => none

/-- `json.loads` on the recipe grammar emitted by `json_dumps`; `none` on malformed text
(where CPython's `json.loads` would raise). -/
def json_loads (s : String) : Option (List Ingredient) :=
  match s.data with
  | '[' :: rest =>
    if rest = [']'] then some []
    else
      match parseEntriesAux rest.length rest with
      | some (es, []) => some es
      | _ => none
  | _ => none

theorem parseLit_append (lit rest : List Char) : parseLit lit (lit ++ rest) = some rest := by
  induction lit with
  | nil => rfl
  | cons c cs ih => simp [parseLit, ih]

theorem parseStrAux_quote (rest : List Char) : parseStrAux ('"' :: rest) = some ([], rest) := by
  rw [parseStrAux.eq_def]
  simp only []
  rw [if_neg (by decide)]
  simp

theorem parseStrAux_esc (c : Char) (rest : List Char) :
    parseStrAux ('\\' :: c :: rest) = (parseStrAux rest).map fun p => (c :: p.1, p.2) := by
  rw [parseStrAux.eq_def]
  simp

theorem parseStrAux_other (c : Char) (rest : List Char) (h1 : c ≠ '\\') (h2 : c ≠ '"') :
    parseStrAux (c :: rest) = (parseStrAux rest).map fun p => (c :: p.1, p.2) := by
  rw [parseStrAux.eq_def]
  simp [h1, h2]

theorem parseStrAux_escape (cs rest : List Char) :
    parseStrAux (escape cs ++ '"' :: rest) = some (cs, rest) := by
  induction cs with
  | nil => simpa [escape] using parseStrAux_quote rest
  | cons c cs ih =>
    have hesc : escape (c :: cs) = escChar c ++ escape cs := by
      simp [escape]
    by_cases h : c = '"' ∨ c = '\\'
    · have he : escChar c = ['\\', c] := by simp [escChar, h]
      rw [hesc, he]
      simp [parseStrAux_esc, ih]
    · push_neg at h
      have he : escChar c = [c] := by simp [escChar, h.1, h.2]
      rw [hesc, he]
      simp [parseStrAux_other c _ h.2 h.1, ih]

theorem digitChar_toNat (d : Nat) (h : d < 10) : (digitChar d).toNat = 48 + d := by
  interval_cases d <;> decide

theorem digitChar_isDigit (d : Nat) (h : d < 10) : (digitChar d).isDigit = true := by
  interval_cases d <;> decide

theorem natCharsAux_digits (fuel : Nat) :
    ∀ n, ∀ c ∈ natCharsAux fuel n, c.isDigit = true := by
  induction fuel with
  | zero => intro n c hc; simp [natCharsAux] at hc
  | succ f ih =>
    intro n c hc
    rw [natCharsAux] at hc
    split at hc
    · simp at hc
    · rcases List.mem_append.mp hc with h1 | h2
      · exact ih _ c h1
      · have : c = digitChar (n % 10) := by simpa using h2
        subst this
        exact digitChar_isDigit _ (Nat.mod_lt _ (by norm_num))

theorem natChars_digits (n : Nat) : ∀ c ∈ natChars n, c.isDigit = true := by
  intro c hc
  unfold natChars at hc
  split at hc
  · have : c = '0' := by simpa using hc
    subst this; decide
  · exact natCharsAux_digits n n c hc

theorem digitsVal_append_singleton (ds : List Char) (c : Char) :
    digitsVal (ds ++ [c]) = 10 * digitsVal ds + (c.toNat - 48) := by
  simp [digitsVal, List.foldl_append]

theorem digitsVal_natCharsAux (fuel : Nat) :
    ∀ n, n ≤ fuel → digitsVal (natCharsAux fuel n) = n := by
  induction fuel with
  | zero =>
    intro n hn
    interval_cases n
    simp [natCharsAux, digitsVal]
  | succ f ih =>
    intro n hn
    rw [natCharsAux]
    split
    · rename_i h0; simp [digitsVal, h0]
    · rename_i h0
      rw [digitsVal_append_singleton, digitChar_toNat _ (Nat.mod_lt _ (by norm_num))]
      have hdiv : n / 10 ≤ f := by
        have : n / 10 < n := Nat.div_lt_self (Nat.pos_of_ne_zero h0) (by norm_num)
        omega
      rw [ih _ hdiv]
      omega

theorem digitsVal_natChars (n : Nat) : digitsVal (natChars n) = n := by
  unfold natChars
  split
  · rename_i h0; subst h0; decide
  · exact digitsVal_natCharsAux n n le_rfl

theorem munch_digits_append (ds : List Char) (c : Char) (r : List Char)
    (hds : ∀ x ∈ ds, x.isDigit = true) (hc : c.isDigit = false) :
    munch (ds ++ c :: r) = (ds, c :: r) := by
  induction ds with
  | nil => simp [munch, hc]
  | cons d ds ih =>
    have hd : d.isDigit = true := hds d (by simp)
    have := ih fun x hx => hds x (by simp [hx])
    simp [munch, hd, this]

theorem parseNum_natChars (n : Nat) (c : Char) (r : List Char) (hc : c.isDigit = false) :
    parseNum (natChars n ++ c :: r) = some (n, c :: r) := by
  unfold parseNum
  rw [munch_digits_append _ _ _ (natChars_digits n) hc]
  have hval := digitsVal_natChars n
  cases hn : natChars n with
  | nil =>
    exfalso
    unfold natChars at hn
    split at hn
    · simp at hn
    · rename_i h0
      rcases Nat.exists_eq_succ_of_ne_zero h0 with ⟨m, hm⟩
      rw [hm, natCharsAux, if_neg (by omega : ¬ m + 1 = 0)] at hn
      simp at hn
  | cons d ds =>
    rw [hn] at hval
    simp [hval]
theorem parseEntry_dumpEntry (e : Ingredient) (rest : List Char) :
    parseEntry (dumpEntry e ++ rest) = some (e, rest) := by
  obtain ⟨⟨cd⟩, p⟩ := e
  have hnum := fun n r => parseNum_natChars n '\x7d' r (by decide)
  have hbrace : ∀ r : List Char, parseLit ['\x7d'] ('\x7d' :: r) = some r :=
    fun r => parseLit_append ['\x7d'] r
  simp [parseEntry, dumpEntry, parseLit_append, parseStrAux_escape, hnum, hbrace]

theorem parseEntriesAux_dump (es : List Ingredient) :
    ∀ fuel rest, es ≠ [] → es.length ≤ fuel →
    parseEntriesAux fuel (dumpEntries es ++ ']' :: rest) = some (es, rest) := by
  induction es with
  | nil => intro fuel rest h _; exact absurd rfl h
  | cons e tl ih =>
    intro fuel rest _ hfuel
    obtain ⟨f, rfl⟩ : ∃ f, fuel = f + 1 := ⟨fuel - 1, by simp at hfuel; omega⟩
    cases tl with
    | nil =>
      rw [parseEntriesAux]
      simp [dumpEntries, parseEntry_dumpEntry]
    | cons e2 tl2 =>
      have htl : (e2 :: tl2).length ≤ f := by simp at hfuel ⊢; omega
      rw [parseEntriesAux]
      have hd : dumpEntries (e :: e2 :: tl2) = dumpEntry e ++ ',' :: ' ' :: dumpEntries (e2 :: tl2) := by
        simp [dumpEntries]
      rw [hd]
      simp [parseEntry_dumpEntry, ih f rest (by simp) htl]

theorem dumpEntry_length_pos (e : Ingredient) : 0 < (dumpEntry e).length := by
  simp [dumpEntry, colorLit]

theorem length_le_dumpEntries (es : List Ingredient) : es.length ≤ (dumpEntries es).length := by
  induction es with
  | nil => simp [dumpEntries]
  | cons e tl ih =>
    have h1 := dumpEntry_length_pos e
    cases tl with
    | nil => simp [dumpEntries]; omega
    | cons e2 tl2 =>
      simp [dumpEntries] at ih ⊢
      omega

theorem dumpEntries_cons_head (e : Ingredient) (tl : List Ingredient) :
    ∃ t, dumpEntries (e :: tl) = '\x7b' :: t := by
  cases tl with
  | nil => exact ⟨_, rfl⟩
  | cons e2 tl2 => exact ⟨_, rfl⟩

theorem json_loads_dumps (es : List Ingredient) : json_loads (json_dumps es) = some es := by
  cases es with
  | nil => rfl
  | cons e tl =>
    obtain ⟨t, ht⟩ := dumpEntries_cons_head e tl
    have hdata : (json_dumps (e :: tl)).data = '[' :: (dumpEntries (e :: tl) ++ [']']) := rfl
    have hne : dumpEntries (e :: tl) ++ [']'] ≠ [']'] := by
      rw [ht]; simp
    have hlen : (e :: tl).length ≤ (dumpEntries (e :: tl) ++ [']']).length := by
      have := length_le_dumpEntries (e :: tl)
      simp at this ⊢
      omega
    have hparse := parseEntriesAux_dump (e :: tl) ((dumpEntries (e :: tl) ++ [']']).length) [] (by simp) hlen
    simp only [json_loads, hdata]
    rw [if_neg hne]
    simp only [List.append_nil] at hparse
    rw [hparse]

/-! ## Error handlers (`api.py`, error handling section) -/

/-- The uniform JSON error envelope returned by every registered error handler. -/
def errorBody (code : Nat) (msg : String) : JVal :=
  JVal.jobj [("success", JVal.jbool false), ("error", JVal.jnum code), ("message", JVal.jstr msg)]

/-- The `@app.errorhandler(404)` handler `not_found`. -/
def not_found : Nat × JVal := (404, errorBody 404 "resource not found")

/-- The `@app.errorhandler(422)` handler `unprocessable`. -/
def unprocessable : Nat × JVal := (422, errorBody 422 "unprocessable")

/-- The `@app.errorhandler(400)` handler `bad_request`. -/
def bad_request : Nat × JVal := (400, errorBody 400 "bad request")

/-- The `@app.errorhandler(500)` handler `server_error`; in production Flask this also
renders any uncaught Python exception escaping a handler. -/
def server_error : Nat × JVal := (500, errorBody 500 "server error")

/-! ## Authorization (Token Verifier and Permission Guard) -/

/-- Modelled from the spec: `auth/auth.py` (`AuthError`) is not in the repository.
Per spec §4.1/§4.2/§7, every authorization failure kind (missing/malformed/invalid
header, bad signature, expired token, claim mismatch, missing permission) carries its
own message and a status code supplied by the verifier. -/
structure AuthError where
  message : String
  status_code : Nat
deriving Repr, DecidableEq

/-- The `@app.errorhandler(AuthError)` handler `handle_auth_errors` from `api.py`:
HTTP status 401, the verifier-supplied status code as the `error` field, and the
kind's own message as the `message` field. -/
def handle_auth_errors (e : AuthError) : Nat × JVal :=
  (401, JVal.jobj [("success", JVal.jbool false), ("error", JVal.jnum e.status_code),
                   ("message", JVal.jstr e.message)])

/-- Modelled from the spec: validated token claims include a `permissions` set
of permission strings (absent entry treated as the empty set). -/
structure Claims where
  permissions : List String
deriving Repr, DecidableEq

/-- Modelled from the spec: the Token Verifier's outcome on a request — validated
claims, or an authorization failure of some kind. -/
inductive TokenCheck where
  | verified (claims : Claims)
  | failed (e : AuthError)
deriving Repr, DecidableEq

/-- Modelled from the spec: the `PermissionMissing` authorization-error kind raised by
the Permission Guard when the claims lack the required permission (401-equivalent). -/
def permissionMissing : AuthError := ⟨"Permission not found.", 401⟩

/-- A route's computation: the HTTP response (status, JSON body) and resulting database. -/
abbrev RouteResult := (Nat × JVal) × DB

/-- Modelled from the spec: `requires_auth(permission)` from `auth/auth.py` wraps a
handler; a verifier failure or a missing permission short-circuits with an `AuthError`
(rendered by `handle_auth_errors`) before the handler runs; on success the handler
receives the decoded claims as payload. -/
def requires_auth (permission : String) (handler : Claims → DB → RouteResult)
    (tok : TokenCheck) (db : DB) : RouteResult :=
  match tok with
  | .failed e => (handle_auth_errors e, db)
  | .verified claims =>
    if permission ∈ claims.permissions then handler claims db
    else (handle_auth_errors permissionMissing, db)

/-! ## The `Drink` model's projections -/

/-- Modelled from the spec: `Drink.long` from `database/models.py` (not in the
repository): id, title, and the full recipe — `json.loads` of the stored text — with
each entry's `color` and `parts`.  `none` models `json.loads` raising on malformed
column text. -/
def Drink.long (d : Drink) : Option JVal :=
  (json_loads d.recipe).map fun r =>
    JVal.jobj [("id", JVal.jnum d.id), ("title", JVal.jstr d.title),
      ("recipe", JVal.jarr (r.map fun i =>
        JVal.jobj [("color", JVal.jstr i.color), ("parts", JVal.jnum i.parts)]))]

/-- Modelled from the spec: `Drink.short`: id, title, and the recipe with only each
entry's `color` — the quantity field is hidden. -/
def Drink.short (d : Drink) : Option JVal :=
  (json_loads d.recipe).map fun r =>
    JVal.jobj [("id", JVal.jnum d.id), ("title", JVal.jstr d.title),
      ("recipe", JVal.jarr (r.map fun i => JVal.jobj [("color", JVal.jstr i.color)]))]

/-! ## Repository operations used by `api.py` -/

/-- `Drink.query.filter_by(id=id).one_or_none()`: `some (some d)` when exactly one row
matches, `some none` when none does, and `none` when several match (the call raises). -/
def one_or_none (db : DB) (id : Nat) : Option (Option Drink) :=
  match db.filter (fun d => d.id == id) with
  | [] => some none
  | [d] => some (some d)
  | _ => none

/-- The server-assigned primary key for a new row (autoincrement). -/
def nextId (db : DB) : Nat := (db.map Drink.id).foldr max 0 + 1

/-- `drink.insert()` on a freshly constructed model object: the row is appended with a
server-assigned id. -/
def insertNew (db : DB) (title : String) (recipe : String) : Drink × DB :=
  (⟨nextId db, title, recipe⟩, db ++ [⟨nextId db, title, recipe⟩])

/-- `drink.insert()` on the already-persisted row fetched by id (the update handler
re-saves it): the row with that primary key is replaced. -/
def saveExisting (db : DB) (d : Drink) : DB :=
  db.map fun x => if x.id == d.id then d else x

/-- `drink.delete()`: the row with the drink's primary key is removed. -/
def deleteRow (db : DB) (id : Nat) : DB := db.filter fun x => x.id != id

/-! ## Request handlers (`api.py` routes) -/

/-- The parsed JSON request body of a create/update request: a JSON object in which
the `title` and `recipe` keys may each be present or absent. -/
structure ReqBody where
  title : Option String
  recipe : Option (List Ingredient)
deriving Repr

/-- `GET /drinks` (public): 404 when the table is empty, else the `short()` forms.
A `json.loads` failure inside `short()` is an uncaught exception, rendered as 500. -/
def drinks (db : DB) : Nat × JVal :=
  if db.length = 0 then not_found
  else
    match db.mapM Drink.short with
    | some ls => (200, JVal.jobj [("success", JVal.jbool true), ("drinks", JVal.jarr ls)])
    | none => server_error

/-- The body of `GET /drinks-detail`, run after the permission guard: 404 when the
table is empty, else the `long()` forms. -/
def drinks_detail (_payload : Claims) (db : DB) : Nat × JVal :=
  if db.length = 0 then not_found
  else
    match db.mapM Drink.long with
    | some ls => (200, JVal.jobj [("success", JVal.jbool true), ("drinks", JVal.jarr ls)])
    | none => server_error

/-- The body of `POST /drinks`, run after the permission guard.  `body['title']` and
`body['recipe']` raise `KeyError` when the key is absent — an uncaught exception
rendered as 500.  Otherwise a new row persisting `json.dumps(recipe)` is inserted and
the response carries the bare `long()` object (not wrapped in an array). -/
def add_drink (body : ReqBody) (_payload : Claims) (db : DB) : RouteResult :=
  match body.title, body.recipe with
  | some title, some recipe =>
    let p := insertNew db title (json_dumps recipe)
    match p.1.long with
    | some lj => ((200, JVal.jobj [("success", JVal.jbool true), ("drinks", lj)]), p.2)
    | none => (server_error, p.2)
  | _, _ => (server_error, db)

/-- The body of `PATCH /drinks/<id>`, run after the permission guard: fetch by id (404
when absent), overwrite exactly the fields present in the body (`recipe` re-serialized
with `json.dumps`), re-save the row, and answer with a one-element array of the
`long()` form. -/
def edit_drink_by_id (body : ReqBody) (id : Nat) (_payload : Claims) (db : DB) :
    RouteResult :=
  match one_or_none db id with
  | none => (server_error, db)
  | some none => (not_found, db)
  | some (some drink) =>
    let d1 := match body.title with
      | some t => { drink with title := t }
      | none => drink
    let d2 := match body.recipe with
      | some r => { d1 with recipe := json_dumps r }
      | none => d1
    let db2 := saveExisting db d2
    match d2.long with
    | some lj =>
      ((200, JVal.jobj [("success", JVal.jbool true), ("drinks", JVal.jarr [lj])]), db2)
    | none => (server_error, db2)

/-- The body of `DELETE /drinks/<id>`, run after the permission guard: fetch by id
(404 when absent), remove the row, and answer `{success: true, delete: id}`. -/
def delete_drink (id : Nat) (_payload : Claims) (db : DB) : RouteResult :=
  match one_or_none db id with
  | none => (server_error, db)
  | some none => (not_found, db)
  | some (some _) =>
    ((200, JVal.jobj [("success", JVal.jbool true), ("delete", JVal.jnum id)]),
     deleteRow db id)

/-- The full `GET /drinks-detail` route: `requires_auth('get:drinks-detail')` wrapping
`drinks_detail`. -/
def drinks_detail_route (tok : TokenCheck) (db : DB) : RouteResult :=
  requires_auth "get:drinks-detail" (fun payload db => (drinks_detail payload db, db)) tok db

/-- The full `POST /drinks` route: `requires_auth('post:drinks')` wrapping `add_drink`. -/
def add_drink_route (body : ReqBody) (tok : TokenCheck) (db : DB) : RouteResult :=
  requires_auth "post:drinks" (add_drink body) tok db

/-- The full `PATCH /drinks/<id>` route: `requires_auth('patch:drinks')` wrapping
`edit_drink_by_id`. -/
def edit_drink_route (id : Nat) (body : ReqBody) (tok : TokenCheck) (db : DB) :
    RouteResult :=
  requires_auth "patch:drinks" (edit_drink_by_id body id) tok db

/-- The full `DELETE /drinks/<id>` route: `requires_auth('delete:drinks')` wrapping
`delete_drink`. -/
def delete_drink_route (id : Nat) (tok : TokenCheck) (db : DB) : RouteResult :=
  requires_auth "delete:drinks" (delete_drink id) tok db
theorem one_or_none_filter_eq (db : DB) (id : Nat) (d : Drink)
    (h : one_or_none db id = some (some d)) :
    db.filter (fun x => x.id == id) = [d] := by
  unfold one_or_none at h
  split at h
  · simp at h
  · rename_i x heq
    simp only [Option.some.injEq] at h
    rw [heq, h]
  · simp at h

theorem one_or_none_id_eq (db : DB) (id : Nat) (d : Drink)
    (h : one_or_none db id = some (some d)) : d.id = id := by
  have hf := one_or_none_filter_eq db id d h
  have : d ∈ db.filter (fun x => x.id == id) := by rw [hf]; simp
  simpa using (List.mem_filter.mp this).2

theorem one_or_none_mem (db : DB) (id : Nat) (d : Drink)
    (h : one_or_none db id = some (some d)) : d ∈ db := by
  have hf := one_or_none_filter_eq db id d h
  have : d ∈ db.filter (fun x => x.id == id) := by rw [hf]; simp
  exact (List.mem_filter.mp this).1

theorem map_save_of_filter_nil (tl : DB) (d' : Drink) (id : Nat) (hid : d'.id = id)
    (h : tl.filter (fun x => x.id == id) = []) :
    (tl.map fun x => if x.id == d'.id then d' else x) = tl := by
  induction tl with
  | nil => rfl
  | cons a tl ih =>
    rw [List.filter_cons] at h
    split at h
    · simp at h
    · rename_i ha
      simp only [List.map_cons]
      have hne : ¬ (a.id == d'.id) = true := by
        simp only [beq_iff_eq] at ha ⊢
        omega
      rw [if_neg hne, ih h]

theorem filter_map_save (db : DB) (id : Nat) (d d' : Drink)
    (hd' : d'.id = id)
    (h : db.filter (fun x => x.id == id) = [d]) :
    ((db.map fun x => if x.id == d'.id then d' else x).filter fun x => x.id == id) = [d'] := by
  induction db with
  | nil => simp at h
  | cons a tl ih =>
    rw [List.filter_cons] at h
    split at h
    · rename_i ha
      have ha' : a.id = id := by simpa using ha
      have had : a = d ∧ tl.filter (fun x => x.id == id) = [] := by
        constructor
        · exact (List.cons_eq_cons.mp h).1
        · exact (List.cons_eq_cons.mp h).2
      simp only [List.map_cons]
      rw [if_pos (by simp [ha', hd']), map_save_of_filter_nil tl d' id hd' had.2,
        List.filter_cons, if_pos (by simp [hd']), had.2]
    · rename_i ha
      simp only [List.map_cons]
      have hne1 : ¬ (a.id == d'.id) = true := by
        simp only [beq_iff_eq] at ha ⊢
        omega
      rw [if_neg hne1, List.filter_cons, if_neg ha]
      exact ih h

theorem saveExisting_self (db : DB) (d : Drink) (id : Nat) (hd : d.id = id)
    (h : db.filter (fun x => x.id == id) = [d]) : saveExisting db d = db := by
  unfold saveExisting
  induction db with
  | nil => rfl
  | cons a tl ih =>
    rw [List.filter_cons] at h
    split at h
    · rename_i ha
      have had : a = d := (List.cons_eq_cons.mp h).1
      have htl : tl.filter (fun x => x.id == id) = [] := (List.cons_eq_cons.mp h).2
      simp only [List.map_cons]
      rw [map_save_of_filter_nil tl d id hd htl, had, if_pos (by simp)]
    · rename_i ha
      simp only [List.map_cons]
      have hne : ¬ (a.id == d.id) = true := by
        simp only [beq_iff_eq] at ha ⊢
        omega
      rw [if_neg hne]
      rw [ih h]

theorem filter_deleteRow (db : DB) (id : Nat) :
    (deleteRow db id).filter (fun x => x.id == id) = [] := by
  unfold deleteRow
  induction db with
  | nil => rfl
  | cons a tl ih =>
    by_cases ha : a.id = id
    · simp only [List.filter_cons]
      rw [if_neg (by simp [ha]), ih]
    · simp only [List.filter_cons]
      rw [if_pos (by simp [ha]), List.filter_cons, if_neg (by simp [ha]), ih]

theorem one_or_none_of_filter_nil (db : DB) (id : Nat)
    (h : db.filter (fun x => x.id == id) = []) : one_or_none db id = some none := by
  unfold one_or_none
  rw [h]

/-- A sample well-formed persisted drink row, used by the witnesses. -/
def drink0 : Drink := ⟨1, "Water", json_dumps [⟨"blue", 1⟩]⟩

/-- A sample one-row persisted collection, used by the witnesses. -/
def drinkDB0 : DB := [drink0]

/-- C8: every failure is surfaced as `{success:false, error:<code>, message:<string>}`
with matching HTTP status — 404 "resource not found", 422 "unprocessable", 400
"bad request", 500 "server error" — and every authorization-error kind is rendered as
HTTP 401 carrying the kind's own message and the verifier-supplied status code. -/
theorem error_translator_uniform_envelope (e : AuthError) :
    not_found = (404, JVal.jobj [("success", JVal.jbool false), ("error", JVal.jnum 404),
      ("message", JVal.jstr "resource not found")]) ∧
    unprocessable = (422, JVal.jobj [("success", JVal.jbool false), ("error", JVal.jnum 422),
      ("message", JVal.jstr "unprocessable")]) ∧
    bad_request = (400, JVal.jobj [("success", JVal.jbool false), ("error", JVal.jnum 400),
      ("message", JVal.jstr "bad request")]) ∧
    server_error = (500, JVal.jobj [("success", JVal.jbool false), ("error", JVal.jnum 500),
      ("message", JVal.jstr "server error")]) ∧
    handle_auth_errors e = (401, JVal.jobj [("success", JVal.jbool false),
      ("error", JVal.jnum e.status_code), ("message", JVal.jstr e.message)]) :=
  ⟨rfl, rfl, rfl, rfl, rfl⟩

/-- C1 (refuting evaluation): a create request with a valid `post:drinks` token whose
JSON body is missing the required `title`/`recipe` fields is answered 500 "server
error" — the `KeyError` from `body['title']` escapes the handler — not 422/400 as the
claim requires. -/
theorem create_missing_fields_yield_500 :
    add_drink_route ⟨none, none⟩ (.verified ⟨["post:drinks"]⟩) [] = (server_error, []) ∧
    add_drink_route ⟨some "Water", none⟩ (.verified ⟨["post:drinks"]⟩) [] = (server_error, []) ∧
    server_error.1 = 500 ∧ server_error.1 ≠ 422 ∧ server_error.1 ≠ 400 := by
  refine ⟨?_, ?_, rfl, by decide, by decide⟩ <;> rfl

/-- C4: whenever the persisted drink collection is empty, both list routes — public
`GET /drinks` and `GET /drinks-detail` under a token holding `get:drinks-detail` —
answer 404 ("resource not found"), never 200 with an empty list. -/
theorem empty_collection_lists_404 (claims : Claims) (db : DB) (hdb : db = [])
    (hperm : "get:drinks-detail" ∈ claims.permissions) :
    drinks db = not_found ∧
    drinks_detail_route (.verified claims) db = (not_found, db) := by
  subst hdb
  refine ⟨rfl, ?_⟩
  simp [drinks_detail_route, requires_auth, hperm, drinks_detail]

theorem empty_collection_lists_404_witness :
    drinks [] = not_found ∧
    drinks_detail_route (.verified ⟨["get:drinks-detail"]⟩) [] = (not_found, []) :=
  empty_collection_lists_404 ⟨["get:drinks-detail"]⟩ [] rfl (by simp)

/-- C3: a valid (verified) token whose permissions lack the permission a guard
requires yields exactly the 401 `PermissionMissing` response; the wrapped handler is
never invoked (the outcome is the same for every handler) and the persisted
collection is unchanged. -/
theorem missing_permission_is_401_and_pure (perm : String) (claims : Claims) (db : DB)
    (h1 h2 : Claims → DB → RouteResult) (hperm : perm ∉ claims.permissions) :
    requires_auth perm h1 (.verified claims) db = (handle_auth_errors permissionMissing, db) ∧
    (requires_auth perm h1 (.verified claims) db).1.1 = 401 ∧
    requires_auth perm h1 (.verified claims) db = requires_auth perm h2 (.verified claims) db ∧
    (requires_auth perm h1 (.verified claims) db).2 = db := by
  have h : requires_auth perm h1 (.verified claims) db
      = (handle_auth_errors permissionMissing, db) := by
    simp [requires_auth, hperm]
  have h' : requires_auth perm h2 (.verified claims) db
      = (handle_auth_errors permissionMissing, db) := by
    simp [requires_auth, hperm]
  exact ⟨h, by rw [h]; rfl, by rw [h, h'], by rw [h]⟩

theorem missing_permission_is_401_and_pure_witness :
    requires_auth "post:drinks" (add_drink ⟨none, none⟩) (.verified ⟨["get:drinks-detail"]⟩)
      drinkDB0 = (handle_auth_errors permissionMissing, drinkDB0) :=
  (missing_permission_is_401_and_pure "post:drinks" ⟨["get:drinks-detail"]⟩ drinkDB0
    (add_drink ⟨none, none⟩) (delete_drink 1) (by decide)).1

/-- C2: the success shapes of the three writes are exactly: create answers
`{success:true, drinks: <bare long object>}` (not wrapped in an array), update answers
`{success:true, drinks: [<long of updated drink>]}` (a one-element array), and delete
answers `{success:true, delete: id}` with the requested id. -/
theorem write_success_shapes (db : DB) (c : Claims) (b b2 : ReqBody) (t t2 : String)
    (r r2 : List Ingredient) (id : Nat) (d : Drink)
    (hbt : b.title = some t) (hbr : b.recipe = some r)
    (hb2t : b2.title = some t2) (hb2r : b2.recipe = some r2)
    (hid : one_or_none db id = some (some d)) :
    (add_drink b c db).1 = (200, JVal.jobj [("success", JVal.jbool true),
      ("drinks", JVal.jobj [("id", JVal.jnum (nextId db)), ("title", JVal.jstr t),
        ("recipe", JVal.jarr (r.map fun i =>
          JVal.jobj [("color", JVal.jstr i.color), ("parts", JVal.jnum i.parts)]))])]) ∧
    (edit_drink_by_id b2 id c db).1 = (200, JVal.jobj [("success", JVal.jbool true),
      ("drinks", JVal.jarr [JVal.jobj [("id", JVal.jnum d.id), ("title", JVal.jstr t2),
        ("recipe", JVal.jarr (r2.map fun i =>
          JVal.jobj [("color", JVal.jstr i.color), ("parts", JVal.jnum i.parts)]))]])]) ∧
    (delete_drink id c db).1 = (200, JVal.jobj [("success", JVal.jbool true),
      ("delete", JVal.jnum id)]) := by
  refine ⟨?_, ?_, ?_⟩
  · simp [add_drink, hbt, hbr, insertNew, Drink.long, json_loads_dumps]
  · simp [edit_drink_by_id, hid, hb2t, hb2r, Drink.long, json_loads_dumps]
  · simp [delete_drink, hid]

theorem write_success_shapes_witness :
    (delete_drink 1 ⟨[]⟩ drinkDB0).1
      = (200, JVal.jobj [("success", JVal.jbool true), ("delete", JVal.jnum 1)]) :=
  (write_success_shapes drinkDB0 ⟨[]⟩ ⟨some "Tea", some []⟩ ⟨some "Tea", some []⟩
    "Tea" "Tea" [] [] 1 drink0 rfl rfl rfl rfl (by rfl)).2.2

/-- C5: an update supplying `title` but no `recipe` to an existing id leaves the
stored recipe text unchanged, and an immediate read of that id returns the row with
exactly the title changed and the id and recipe untouched. -/
theorem update_title_only_preserves_recipe (db : DB) (id : Nat) (d : Drink) (t : String)
    (c : Claims) (hid : one_or_none db id = some (some d)) :
    (edit_drink_by_id ⟨some t, none⟩ id c db).2 = saveExisting db ⟨d.id, t, d.recipe⟩ ∧
    one_or_none (edit_drink_by_id ⟨some t, none⟩ id c db).2 id
      = some (some ⟨d.id, t, d.recipe⟩) := by
  have hdid := one_or_none_id_eq db id d hid
  have hf := one_or_none_filter_eq db id d hid
  have hdb2 : (edit_drink_by_id ⟨some t, none⟩ id c db).2
      = saveExisting db ⟨d.id, t, d.recipe⟩ := by
    cases hlong : Drink.long ⟨d.id, t, d.recipe⟩ <;>
      simp [edit_drink_by_id, hid, hlong]
  refine ⟨hdb2, ?_⟩
  rw [hdb2]
  have hfil := filter_map_save db id d ⟨d.id, t, d.recipe⟩ (by simpa using hdid) hf
  unfold one_or_none
  simp only [saveExisting]
  rw [hfil]

theorem update_title_only_preserves_recipe_witness :
    one_or_none (edit_drink_by_id ⟨some "Tea", none⟩ 1 ⟨[]⟩ drinkDB0).2 1
      = some (some ⟨1, "Tea", json_dumps [⟨"blue", 1⟩]⟩) :=
  (update_title_only_preserves_recipe drinkDB0 1 drink0 "Tea" ⟨[]⟩ (by rfl)).2

/-- C6: deleting an existing id succeeds with 200; a subsequent read of that id is
absent; and a second delete of the same id answers 404 ("resource not found"), not
500, leaving the collection unchanged. -/
theorem delete_then_get_absent_then_404 (db : DB) (id : Nat) (d : Drink) (c c2 : Claims)
    (hid : one_or_none db id = some (some d)) :
    (delete_drink id c db).1.1 = 200 ∧
    one_or_none (delete_drink id c db).2 id = some none ∧
    delete_drink id c2 (delete_drink id c db).2
      = (not_found, (delete_drink id c db).2) := by
  have hdb2 : (delete_drink id c db).2 = deleteRow db id := by
    simp [delete_drink, hid]
  have h1 : (delete_drink id c db).1.1 = 200 := by simp [delete_drink, hid]
  have hoo : one_or_none (deleteRow db id) id = some none :=
    one_or_none_of_filter_nil _ _ (filter_deleteRow db id)
  refine ⟨h1, by rw [hdb2]; exact hoo, ?_⟩
  rw [hdb2]
  simp [delete_drink, hoo]

theorem delete_then_get_absent_then_404_witness :
    one_or_none (delete_drink 1 ⟨[]⟩ drinkDB0).2 1 = some none :=
  (delete_then_get_absent_then_404 drinkDB0 1 drink0 ⟨[]⟩ ⟨[]⟩ (by rfl)).2.1

/-- C10: an update whose body supplies a `recipe` replaces the stored recipe wholesale
with the serialization of the supplied value (no merging with the old entries), and an
update supplying neither `title` nor `recipe` succeeds with 200, returning the drink
unchanged and leaving the collection unchanged. -/
theorem update_recipe_wholesale_and_empty_noop (db : DB) (id : Nat) (d : Drink)
    (c : Claims) (t : Option String) (r r0 : List Ingredient)
    (hid : one_or_none db id = some (some d)) (hl : json_loads d.recipe = some r0) :
    one_or_none (edit_drink_by_id ⟨t, some r⟩ id c db).2 id =
      some (some ⟨d.id, t.getD d.title, json_dumps r⟩) ∧
    edit_drink_by_id ⟨none, none⟩ id c db =
      ((200, JVal.jobj [("success", JVal.jbool true),
        ("drinks", JVal.jarr [JVal.jobj [("id", JVal.jnum d.id),
          ("title", JVal.jstr d.title),
          ("recipe", JVal.jarr (r0.map fun i =>
            JVal.jobj [("color", JVal.jstr i.color), ("parts", JVal.jnum i.parts)]))]])]),
       db) := by
  have hdid := one_or_none_id_eq db id d hid
  have hf := one_or_none_filter_eq db id d hid
  constructor
  · have hdb2 : (edit_drink_by_id ⟨t, some r⟩ id c db).2
        = saveExisting db ⟨d.id, t.getD d.title, json_dumps r⟩ := by
      cases t <;> simp [edit_drink_by_id, hid, Drink.long, json_loads_dumps]
    rw [hdb2]
    have hfil := filter_map_save db id d ⟨d.id, t.getD d.title, json_dumps r⟩
      (by simpa using hdid) hf
    unfold one_or_none
    simp only [saveExisting]
    rw [hfil]
  · have hsave : saveExisting db d = db := saveExisting_self db d id hdid hf
    simp [edit_drink_by_id, hid, hsave, Drink.long, hl]

theorem update_recipe_wholesale_witness :
    one_or_none (edit_drink_by_id ⟨none, some [⟨"red", 3⟩]⟩ 1 ⟨[]⟩ drinkDB0).2 1
      = some (some ⟨1, "Water", json_dumps [⟨"red", 3⟩]⟩) :=
  (update_recipe_wholesale_and_empty_noop drinkDB0 1 drink0 ⟨[]⟩ none [⟨"red", 3⟩]
    [⟨"blue", 1⟩] (by rfl) (by rfl)).1

/-- The spec's words for the short/long relation: remove the quantity (`parts`) field
from one serialized recipe entry. -/
def stripEntry : JVal → JVal
  | .jobj fields => .jobj (fields.filter fun kv => kv.1 != "parts")
  | v => v

/-- The spec's words: hide the quantity in each entry of a long drink object's
`recipe` array, preserving `id`, `title` and each entry's `color`. -/
def stripLong : JVal → JVal
  | .jobj fields => .jobj (fields.map fun kv =>
      if kv.1 = "recipe" then
        (kv.1, match kv.2 with
          | .jarr es => .jarr (es.map stripEntry)
          | v => v)
      else kv)
  | v => v

/-- Apply the long-to-short projection to each element of a response body's `drinks`
array. -/
def stripTop : JVal → JVal
  | .jobj fields => .jobj (fields.map fun kv =>
      if kv.1 = "drinks" then
        (kv.1, match kv.2 with
          | .jarr ls => .jarr (ls.map stripLong)
          | v => v)
      else kv)
  | v => v

theorem stripEntry_long_entry (i : Ingredient) :
    stripEntry (JVal.jobj [("color", JVal.jstr i.color), ("parts", JVal.jnum i.parts)])
      = JVal.jobj [("color", JVal.jstr i.color)] := by
  rfl

theorem short_eq_strip_long (d : Drink) : d.short = d.long.map stripLong := by
  unfold Drink.short Drink.long
  cases hjl : json_loads d.recipe with
  | none => rfl
  | some r =>
    simp [stripLong, List.map_map, Function.comp, stripEntry_long_entry]

theorem mapM_short_eq (db : DB) :
    db.mapM Drink.short = (db.mapM Drink.long).map (List.map stripLong) := by
  induction db with
  | nil => rfl
  | cons d tl ih =>
    cases hl : d.long with
    | none =>
      rw [List.mapM_cons, List.mapM_cons, short_eq_strip_long, hl]
      rfl
    | some lj =>
      rw [List.mapM_cons, List.mapM_cons, short_eq_strip_long, hl, ih]
      cases tl.mapM Drink.long <;> rfl

/-- C7: for every drink, `short(d)` is exactly `long(d)` with each recipe entry's
quantity field removed (id, title, colors preserved); consequently the public
`GET /drinks` body is exactly this projection applied to the authorized
`GET /drinks-detail` body, with identical status. -/
theorem short_is_projection_of_long (claims : Claims) (db : DB)
    (hperm : "get:drinks-detail" ∈ claims.permissions) :
    (∀ d : Drink, d.short = d.long.map stripLong) ∧
    drinks db = ((drinks_detail_route (.verified claims) db).1.1,
      stripTop (drinks_detail_route (.verified claims) db).1.2) := by
  refine ⟨short_eq_strip_long, ?_⟩
  have hroute : drinks_detail_route (.verified claims) db = (drinks_detail claims db, db) := by
    simp [drinks_detail_route, requires_auth, hperm]
  rw [hroute]
  by_cases hlen : db.length = 0
  · simp only [drinks, drinks_detail, if_pos hlen]
    rfl
  · simp only [drinks, drinks_detail, if_neg hlen]
    rw [mapM_short_eq]
    cases hm : db.mapM Drink.long with
    | none => rfl
    | some ls => rfl

theorem short_is_projection_of_long_witness :
    drinks drinkDB0
      = ((drinks_detail_route (.verified ⟨["get:drinks-detail"]⟩) drinkDB0).1.1,
         stripTop (drinks_detail_route (.verified ⟨["get:drinks-detail"]⟩) drinkDB0).1.2) :=
  (short_is_projection_of_long ⟨["get:drinks-detail"]⟩ drinkDB0 (by decide)).2

/-- The write-path invariant of C9: every stored recipe column is the `json.dumps`
serialization of some structured recipe value, and `json.loads` recovers it. -/
def recipeWellFormed (db : DB) : Prop :=
  ∀ d ∈ db, ∃ r, d.recipe = json_dumps r ∧ json_loads d.recipe = some r

theorem recipeWellFormed_save (db : DB) (d2 : Drink) (hwf : recipeWellFormed db)
    (h2 : ∃ r, d2.recipe = json_dumps r ∧ json_loads d2.recipe = some r) :
    recipeWellFormed (saveExisting db d2) := by
  intro x hx
  rcases List.mem_map.mp hx with ⟨y, hy, hxy⟩
  by_cases hc : (y.id == d2.id) = true
  · rw [if_pos hc] at hxy
    rw [← hxy]
    exact h2
  · rw [if_neg hc] at hxy
    rw [← hxy]
    exact hwf y hy

theorem recipeWellFormed_add (b : ReqBody) (cl : Claims) (db : DB)
    (hwf : recipeWellFormed db) : recipeWellFormed (add_drink b cl db).2 := by
  obtain ⟨bt, br⟩ := b
  cases bt with
  | none => simpa [add_drink] using hwf
  | some t =>
    cases br with
    | none => simpa [add_drink] using hwf
    | some r =>
      have hnew : recipeWellFormed (db ++ [⟨nextId db, t, json_dumps r⟩]) := by
        intro x hx
        rcases List.mem_append.mp hx with h | h
        · exact hwf x h
        · have hx2 : x = ⟨nextId db, t, json_dumps r⟩ := by simpa using h
          rw [hx2]
          exact ⟨r, rfl, json_loads_dumps r⟩
      cases hlong : Drink.long ⟨nextId db, t, json_dumps r⟩ <;>
        simpa [add_drink, insertNew, hlong] using hnew

theorem recipeWellFormed_edit (b : ReqBody) (id : Nat) (cl : Claims) (db : DB)
    (hwf : recipeWellFormed db) : recipeWellFormed (edit_drink_by_id b id cl db).2 := by
  obtain ⟨bt, br⟩ := b
  cases hoo : one_or_none db id with
  | none => simpa [edit_drink_by_id, hoo] using hwf
  | some o =>
    cases o with
    | none => simpa [edit_drink_by_id, hoo] using hwf
    | some d =>
      have hdmem : d ∈ db := one_or_none_mem db id d hoo
      obtain ⟨r0, hr0, hl0⟩ := hwf d hdmem
      cases bt with
      | none =>
        cases br with
        | none =>
          have hsave := recipeWellFormed_save db d hwf ⟨r0, hr0, hl0⟩
          cases hlong : Drink.long d <;>
            simpa [edit_drink_by_id, hoo, hlong] using hsave
        | some r =>
          have hsave := recipeWellFormed_save db ⟨d.id, d.title, json_dumps r⟩ hwf
            ⟨r, rfl, json_loads_dumps r⟩
          cases hlong : Drink.long ⟨d.id, d.title, json_dumps r⟩ <;>
            simpa [edit_drink_by_id, hoo, hlong] using hsave
      | some t =>
        cases br with
        | none =>
          have hsave := recipeWellFormed_save db ⟨d.id, t, d.recipe⟩ hwf ⟨r0, hr0, hl0⟩
          cases hlong : Drink.long ⟨d.id, t, d.recipe⟩ <;>
            simpa [edit_drink_by_id, hoo, hlong] using hsave
        | some r =>
          have hsave := recipeWellFormed_save db ⟨d.id, t, json_dumps r⟩ hwf
            ⟨r, rfl, json_loads_dumps r⟩
          cases hlong : Drink.long ⟨d.id, t, json_dumps r⟩ <;>
            simpa [edit_drink_by_id, hoo, hlong] using hsave

theorem recipeWellFormed_delete (id : Nat) (cl : Claims) (db : DB)
    (hwf : recipeWellFormed db) : recipeWellFormed (delete_drink id cl db).2 := by
  cases hoo : one_or_none db id with
  | none => simpa [delete_drink, hoo] using hwf
  | some o =>
    cases o with
    | none => simpa [delete_drink, hoo] using hwf
    | some d =>
      have hdel : recipeWellFormed (deleteRow db id) := by
        intro x hx
        exact hwf x (List.mem_of_mem_filter hx)
      simpa [delete_drink, hoo] using hdel

theorem recipeWellFormed_guard (perm : String) (handler : Claims → DB → RouteResult)
    (tok : TokenCheck) (db : DB) (hwf : recipeWellFormed db)
    (hh : ∀ cl, recipeWellFormed (handler cl db).2) :
    recipeWellFormed (requires_auth perm handler tok db).2 := by
  cases tok with
  | failed e => simpa [requires_auth] using hwf
  | verified cl =>
    by_cases hp : perm ∈ cl.permissions
    · simpa [requires_auth, hp] using hh cl
    · simpa [requires_auth, hp] using hwf

/-- C9: a successful create stores the row whose `recipe` column is exactly
`json.dumps` of the caller-supplied structure, a successful update with a `recipe`
stores exactly its serialization, `json.loads` recovers the supplied structure from
the stored text, and every write route preserves the invariant that all stored recipe
columns are valid serialized structures (never malformed freeform text). -/
theorem stored_recipe_always_structured (db : DB) (c : Claims) (b b2 : ReqBody)
    (t : String) (r : List Ingredient) (id : Nat) (d : Drink) (tok : TokenCheck)
    (hbt : b.title = some t) (hbr : b.recipe = some r)
    (hid : one_or_none db id = some (some d)) (hwf : recipeWellFormed db) :
    (add_drink b c db).2 = db ++ [⟨nextId db, t, json_dumps r⟩] ∧
    (edit_drink_by_id b id c db).2 = saveExisting db ⟨d.id, t, json_dumps r⟩ ∧
    json_loads (json_dumps r) = some r ∧
    recipeWellFormed (add_drink_route b2 tok db).2 ∧
    recipeWellFormed (edit_drink_route id b2 tok db).2 ∧
    recipeWellFormed (delete_drink_route id tok db).2 := by
  refine ⟨?_, ?_, json_loads_dumps r, ?_, ?_, ?_⟩
  · cases hlong : Drink.long ⟨nextId db, t, json_dumps r⟩ <;>
      simp [add_drink, hbt, hbr, insertNew, hlong]
  · cases hlong : Drink.long ⟨d.id, t, json_dumps r⟩ <;>
      simp [edit_drink_by_id, hid, hbt, hbr, hlong]
  · exact recipeWellFormed_guard _ _ tok db hwf fun cl => recipeWellFormed_add b2 cl db hwf
  · exact recipeWellFormed_guard _ _ tok db hwf fun cl => recipeWellFormed_edit b2 id cl db hwf
  · exact recipeWellFormed_guard _ _ tok db hwf fun cl => recipeWellFormed_delete id cl db hwf

theorem stored_recipe_always_structured_witness :
    (add_drink ⟨some "Tea", some [⟨"green", 2⟩]⟩ ⟨[]⟩ drinkDB0).2
      = drinkDB0 ++ [⟨nextId drinkDB0, "Tea", json_dumps [⟨"green", 2⟩]⟩] :=
  (stored_recipe_always_structured drinkDB0 ⟨[]⟩ ⟨some "Tea", some [⟨"green", 2⟩]⟩
    ⟨none, none⟩ "Tea" [⟨"green", 2⟩] 1 drink0 (.verified ⟨[]⟩) rfl rfl (by rfl)
    (by
      intro d hd
      have hd0 : d = drink0 := by simpa [drinkDB0] using hd
      rw [hd0]
      exact ⟨[⟨"blue", 1⟩], rfl, by rfl⟩)).1

